import Mathlib

/-!
Verification of the RoboMaster teleoperation recording and replay engine
(`cli/lerobot_recorder.py` and `cli/recorder.py`).

Numbers that Python represents as floats are modelled as rationals (`ℚ`);
images are opaque and modelled by a numeric identifier; dictionaries with a
fixed key set are modelled as functions out of an enumerated key type, with
`Option` marking absent keys.
-/

namespace RoboMaster

/-- Action channel names, in the fixed order of `ACTION_NAMES` in
`cli/lerobot_recorder.py`. -/
inductive ActionName where
  | move_x
  | move_y
  | rotate_z
  | gripper_open
  | gripper_close
  | arm_recenter
  | arm_x
  | arm_y
  | unused
deriving DecidableEq, Repr

/-- The ordered list `ACTION_NAMES` from `cli/lerobot_recorder.py`. -/
def ACTION_NAMES : List ActionName :=
  [.move_x, .move_y, .rotate_z, .gripper_open, .gripper_close, .arm_recenter,
   .arm_x, .arm_y, .unused]

/-- Index of a channel inside `ACTION_NAMES` (the `enumerate` index used by
`denormalize_action`). -/
def actionIndex : ActionName → ℕ
  | .move_x => 0
  | .move_y => 1
  | .rotate_z => 2
  | .gripper_open => 3
  | .gripper_close => 4
  | .arm_recenter => 5
  | .arm_x => 6
  | .arm_y => 7
  | .unused => 8

/-- `normalize_action` from `cli/lerobot_recorder.py`: raw named values are
looked up with default `0.0`, clipped to the configured `(min, max)` range
(default `(0, 1)` when the channel has no configured range), then mapped
affinely onto `[-1, 1]`; the `unused` slot is `0.0`. -/
def normalize_action (raw_actions : ActionName → Option ℚ)
    (action_ranges : ActionName → Option (ℚ × ℚ)) : List ℚ :=
  ACTION_NAMES.map fun name =>
    if name = ActionName.unused then 0
    else
      let raw_value := (raw_actions name).getD 0
      let r := (action_ranges name).getD (0, 1)
      let clipped := max r.1 (min r.2 raw_value)
      if r.2 - r.1 > 0 then (clipped - r.1) / (r.2 - r.1) * 2 - 1 else 0

/-- `denormalize_action` from `cli/lerobot_recorder.py`: for every channel
except `unused`, reads the tensor entry at the channel's index (default `0.0`
past the end) and maps it back from `[-1, 1]` to the raw range. The result
dictionary has no `unused` key, modelled as `none`. -/
def denormalize_action (normalized_actions : List ℚ)
    (action_ranges : ActionName → Option (ℚ × ℚ)) : ActionName → Option ℚ :=
  fun name =>
    if name = ActionName.unused then none
    else
      let norm_value := normalized_actions.getD (actionIndex name) 0
      let r := (action_ranges name).getD (0, 1)
      some ((norm_value + 1) / 2 * (r.2 - r.1) + r.1)

lemma getD_map_actionIndex (f : ActionName → ℚ) (name : ActionName) :
    (ACTION_NAMES.map f).getD (actionIndex name) 0 = f name := by
  cases name <;> rfl

/-- One iteration of the inner loop of `FrameBuffer.aggregate_commands`: a
single buffered command's fields are merged into the running aggregate.
Keys absent from the command leave the aggregate untouched; the `unused`
key is not a key of the aggregate dictionary; `arm_recenter` is OR-ed
(set to `1` by any truthy value); every other key is summed. -/
def applyCommand (aggregated : ActionName → ℚ) (cmd : ActionName → Option ℚ) :
    ActionName → ℚ :=
  fun key =>
    match cmd key with
    | none => aggregated key
    | some value =>
      if key = ActionName.unused then aggregated key
      else if key = ActionName.arm_recenter then
        if value ≠ 0 then 1 else aggregated key
      else aggregated key + value

/-- Append to a Python `deque` with `maxlen`: the new element goes to the
right and the oldest elements are discarded from the left when the length
exceeds `maxlen`. -/
def dequeAppend {α : Type} (maxlen : ℕ) (l : List α) (x : α) : List α :=
  let l2 := l ++ [x]
  l2.drop (l2.length - maxlen)

/-- Python `int()` truncation toward zero on a rational. -/
def pyInt (x : ℚ) : ℤ :=
  if 0 ≤ x then ⌊x⌋ else ⌈x⌉

/-- State of `FrameBuffer` from `cli/lerobot_recorder.py`: two frame deques
(newest at the tail), the command deque, and the capacity `max_frames`.
Frames are `(timestamp, image)` pairs with images modelled as opaque
numeric identifiers; commands are `(timestamp, fields)` pairs. -/
structure FrameBuffer where
  max_frames : ℕ
  robot_frames : List (ℚ × ℕ)
  webcam_frames : List (ℚ × ℕ)
  commands : List (ℚ × (ActionName → Option ℚ))
  last_processed_time : ℚ

/-- `FrameBuffer.__init__`: `max_frames = int(max_duration * fps)`, all
deques empty; the command deque capacity is `max_frames * 10`. -/
def FrameBuffer.init (max_duration : ℚ) (fps : ℕ) : FrameBuffer :=
  { max_frames := (pyInt (max_duration * fps)).toNat
    robot_frames := []
    webcam_frames := []
    commands := []
    last_processed_time := 0 }

/-- `FrameBuffer.add_robot_frame`. -/
def FrameBuffer.add_robot_frame (self : FrameBuffer) (frame : ℕ) (timestamp : ℚ) :
    FrameBuffer :=
  { self with robot_frames := dequeAppend self.max_frames self.robot_frames (timestamp, frame) }

/-- `FrameBuffer.add_webcam_frame`. -/
def FrameBuffer.add_webcam_frame (self : FrameBuffer) (frame : ℕ) (timestamp : ℚ) :
    FrameBuffer :=
  { self with webcam_frames := dequeAppend self.max_frames self.webcam_frames (timestamp, frame) }

/-- `FrameBuffer.add_command`; the command deque has capacity `max_frames * 10`. -/
def FrameBuffer.add_command (self : FrameBuffer) (command : ActionName → Option ℚ)
    (timestamp : ℚ) : FrameBuffer :=
  { self with commands := dequeAppend (self.max_frames * 10) self.commands (timestamp, command) }

/-- `FrameBuffer.clear`. -/
def FrameBuffer.clear (self : FrameBuffer) : FrameBuffer :=
  { self with
    robot_frames := []
    webcam_frames := []
    commands := []
    last_processed_time := 0 }

/-- The scanning loop of `FrameBuffer.get_frame_at_time`: keeps the frame with
the strictly smallest `|ts - adjusted_time|` seen so far (`none` plays the role
of the initial `best_diff = inf`). -/
def bestLoop (adjusted : ℚ) : List (ℚ × ℕ) → Option (ℚ × ℕ) → Option (ℚ × ℕ)
  | [], best => best
  | (ts, frame) :: rest, best =>
    let diff := |ts - adjusted|
    match best with
    | none => bestLoop adjusted rest (some (diff, frame))
    | some b => if diff < b.1 then bestLoop adjusted rest (some (diff, frame))
                else bestLoop adjusted rest (some b)

/-- `FrameBuffer.get_frame_at_time`: picks the robot or webcam deque by the
`source` tag, returns `none` when it is empty, otherwise the frame whose
timestamp is closest to `target_time + offset`. -/
def FrameBuffer.get_frame_at_time (self : FrameBuffer) (target_time : ℚ)
    (source : String) (offset : ℚ) : Option ℕ :=
  if (if source = "robot" then self.robot_frames else self.webcam_frames) = [] then none
  else (bestLoop (target_time + offset)
        (if source = "robot" then self.robot_frames else self.webcam_frames) none).map (·.2)

/-- `FrameBuffer.aggregate_commands`: fold every buffered command whose
timestamp lies in `(start_time, end_time]` into the zero-initialized
aggregate, then clamp the two gripper channels to their configured range
(default `(0, 100)`). -/
def FrameBuffer.aggregate_commands (self : FrameBuffer) (start_time end_time : ℚ)
    (action_ranges : ActionName → Option (ℚ × ℚ)) : ActionName → ℚ :=
  let aggregated := self.commands.foldl
    (fun agg c => if start_time < c.1 ∧ c.1 ≤ end_time then applyCommand agg c.2 else agg)
    (fun _ => 0)
  fun key =>
    if key = ActionName.gripper_open ∨ key = ActionName.gripper_close then
      let r := (action_ranges key).getD (0, 100)
      max r.1 (min r.2 (aggregated key))
    else aggregated key

/-- The buffered commands whose timestamp lies in the half-open window
`(start_time, end_time]`. -/
def commandsInWindow (cmds : List (ℚ × (ActionName → Option ℚ)))
    (start_time end_time : ℚ) : List (ℚ × (ActionName → Option ℚ)) :=
  cmds.filter fun c => decide (start_time < c.1 ∧ c.1 ≤ end_time)

/-- A producer call on a `FrameBuffer` (the three `add_*` methods). -/
inductive BufOp where
  | addRobot (timestamp : ℚ) (frame : ℕ)
  | addWebcam (timestamp : ℚ) (frame : ℕ)
  | addCommand (timestamp : ℚ) (fields : ActionName → Option ℚ)

/-- Apply one producer call to the buffer. -/
def FrameBuffer.applyOp (buf : FrameBuffer) : BufOp → FrameBuffer
  | .addRobot ts f => buf.add_robot_frame f ts
  | .addWebcam ts f => buf.add_webcam_frame f ts
  | .addCommand ts c => buf.add_command c ts

lemma length_dequeAppend_le {α : Type} (m : ℕ) (l : List α) (x : α) :
    (dequeAppend m l x).length ≤ m := by
  unfold dequeAppend
  simp only [List.length_drop, List.length_append, List.length_cons]
  omega

lemma max_frames_applyOp (buf : FrameBuffer) (op : BufOp) :
    (buf.applyOp op).max_frames = buf.max_frames := by
  cases op <;> rfl

lemma applyOps_capacity (ops : List BufOp) (buf : FrameBuffer)
    (h1 : buf.robot_frames.length ≤ buf.max_frames)
    (h2 : buf.webcam_frames.length ≤ buf.max_frames)
    (h3 : buf.commands.length ≤ buf.max_frames * 10) :
    (ops.foldl FrameBuffer.applyOp buf).robot_frames.length
        ≤ (ops.foldl FrameBuffer.applyOp buf).max_frames ∧
    (ops.foldl FrameBuffer.applyOp buf).webcam_frames.length
        ≤ (ops.foldl FrameBuffer.applyOp buf).max_frames ∧
    (ops.foldl FrameBuffer.applyOp buf).commands.length
        ≤ (ops.foldl FrameBuffer.applyOp buf).max_frames * 10 := by
  induction ops generalizing buf with
  | nil => exact ⟨h1, h2, h3⟩
  | cons op rest ih =>
    simp only [List.foldl_cons]
    apply ih
    · cases op with
      | addRobot ts f => exact length_dequeAppend_le _ _ _
      | addWebcam ts f => exact h1
      | addCommand ts c => exact h1
    · cases op with
      | addRobot ts f => exact h2
      | addWebcam ts f => exact length_dequeAppend_le _ _ _
      | addCommand ts c => exact h2
    · cases op with
      | addRobot ts f => exact h3
      | addWebcam ts f => exact h3
      | addCommand ts c => exact length_dequeAppend_le _ _ _

lemma dequeAppend_drop {α : Type} (m : ℕ) (xs : List α) (y : α) :
    dequeAppend m (xs.drop (xs.length - m)) y = (xs ++ [y]).drop (xs.length + 1 - m) := by
  unfold dequeAppend
  simp only
  have hb : xs.drop (xs.length - m) ++ [y] = (xs ++ [y]).drop (xs.length - m) :=
    (List.drop_append_of_le_length (by omega)).symm
  rw [hb, List.drop_drop]
  congr 1
  simp only [List.length_append, List.length_cons, List.length_nil, List.length_drop]
  omega

lemma foldl_dequeAppend_nil {α : Type} (m : ℕ) (xs : List α) :
    xs.foldl (dequeAppend m) [] = xs.drop (xs.length - m) := by
  induction xs using List.reverseRecOn with
  | nil => simp
  | append_singleton xs y ih =>
    rw [List.foldl_append, List.foldl_cons, List.foldl_nil, ih, dequeAppend_drop]
    have hlen : (xs ++ [y]).length - m = xs.length + 1 - m := by
      rw [List.length_append, List.length_cons, List.length_nil]
    rw [hlen]

lemma foldl_add_robot_frames (frames : List (ℚ × ℕ)) (buf : FrameBuffer) :
    (frames.foldl (fun b p => b.add_robot_frame p.2 p.1) buf).robot_frames
      = frames.foldl (dequeAppend buf.max_frames) buf.robot_frames := by
  induction frames generalizing buf with
  | nil => rfl
  | cons p rest ih =>
    simp only [List.foldl_cons, ih]
    rfl

/-- Claim C5: for each frame source the buffer never holds more than
`max_frames = int(buffer_duration * fps)` entries (which is at most
`buffer_duration * fps`), inserting `max_frames + 1` frames retains exactly
the most recent `max_frames` with the oldest evicted first, and the command
deque capacity is `10 * max_frames`. -/
theorem frame_buffer_capacity_spec (max_duration : ℚ) (fps : ℕ) (ops : List BufOp)
    (hdur : 0 ≤ max_duration) :
    (ops.foldl FrameBuffer.applyOp (FrameBuffer.init max_duration fps)).robot_frames.length
        ≤ (FrameBuffer.init max_duration fps).max_frames ∧
    (ops.foldl FrameBuffer.applyOp (FrameBuffer.init max_duration fps)).webcam_frames.length
        ≤ (FrameBuffer.init max_duration fps).max_frames ∧
    (ops.foldl FrameBuffer.applyOp (FrameBuffer.init max_duration fps)).commands.length
        ≤ (FrameBuffer.init max_duration fps).max_frames * 10 ∧
    ((FrameBuffer.init max_duration fps).max_frames : ℚ) ≤ max_duration * fps ∧
    (∀ frames : List (ℚ × ℕ),
      frames.length = (FrameBuffer.init max_duration fps).max_frames + 1 →
      (frames.foldl (fun b p => b.add_robot_frame p.2 p.1)
          (FrameBuffer.init max_duration fps)).robot_frames = frames.drop 1) := by
  have hmf : ∀ ops' : List BufOp,
      (ops'.foldl FrameBuffer.applyOp (FrameBuffer.init max_duration fps)).max_frames
        = (FrameBuffer.init max_duration fps).max_frames := by
    intro ops'
    induction ops' using List.reverseRecOn with
    | nil => rfl
    | append_singleton xs y ih => rw [List.foldl_append, List.foldl_cons, List.foldl_nil,
        max_frames_applyOp, ih]
  have hcap := applyOps_capacity ops (FrameBuffer.init max_duration fps)
    (by simp [FrameBuffer.init]) (by simp [FrameBuffer.init]) (by simp [FrameBuffer.init])
  refine ⟨by rw [← hmf ops]; exact hcap.1, by rw [← hmf ops]; exact hcap.2.1,
    by rw [← hmf ops]; exact hcap.2.2, ?_, ?_⟩
  · show (((pyInt (max_duration * fps)).toNat : ℚ)) ≤ max_duration * fps
    have hnn : (0 : ℚ) ≤ max_duration * fps := by positivity
    unfold pyInt
    rw [if_pos hnn]
    have hfl : (0 : ℤ) ≤ ⌊max_duration * (fps : ℚ)⌋ := Int.floor_nonneg.mpr hnn
    have h2 : ((⌊max_duration * (fps : ℚ)⌋.toNat : ℕ) : ℚ)
        = ((⌊max_duration * (fps : ℚ)⌋ : ℤ) : ℚ) := by
      rw [← Int.cast_natCast, Int.toNat_of_nonneg hfl]
    rw [h2]
    exact Int.floor_le _
  · intro frames hlen
    rw [foldl_add_robot_frames]
    show frames.foldl (dequeAppend (FrameBuffer.init max_duration fps).max_frames) [] = _
    rw [foldl_dequeAppend_nil, hlen]
    congr 1
    omega

/-- Witness for claim C5 at `buffer_duration = 1/10`, `fps = 30`
(so `max_frames = 3`): inserting four frames keeps the last three. -/
theorem frame_buffer_capacity_spec_witness :
    ([(0, 7), (1, 8), (2, 9), (3, 10)].foldl
        (fun b p => FrameBuffer.add_robot_frame b p.2 p.1)
        (FrameBuffer.init (1 / 10) 30)).robot_frames
      = [(1, 8), (2, 9), (3, 10)] := by
  have h := (frame_buffer_capacity_spec (1 / 10) 30 [] (by norm_num)).2.2.2.2
    [(0, 7), (1, 8), (2, 9), (3, 10)]
    (by norm_num [FrameBuffer.init, pyInt]; decide)
  rw [h]
  rfl

lemma bestLoop_isSome (adj : ℚ) (l : List (ℚ × ℕ)) (a : ℚ × ℕ) :
    ∃ r, bestLoop adj l (some a) = some r := by
  induction l generalizing a with
  | nil => exact ⟨a, rfl⟩
  | cons q rest ih =>
    obtain ⟨ts, f⟩ := q
    unfold bestLoop
    simp only
    by_cases h : |ts - adj| < a.1
    · rw [if_pos h]; exact ih _
    · rw [if_neg h]; exact ih _

lemma bestLoop_spec (adj : ℚ) (l : List (ℚ × ℕ)) (a r : ℚ × ℕ)
    (h : bestLoop adj l (some a) = some r) :
    (r = a ∨ ∃ ts, (ts, r.2) ∈ l ∧ r.1 = |ts - adj|) ∧ r.1 ≤ a.1 ∧
      ∀ q ∈ l, r.1 ≤ |q.1 - adj| := by
  induction l generalizing a with
  | nil =>
    obtain rfl : a = r := by simpa [bestLoop] using h
    exact ⟨Or.inl rfl, le_refl _, by intro q hq; cases hq⟩
  | cons q rest ih =>
    obtain ⟨ts, f⟩ := q
    unfold bestLoop at h
    simp only at h
    by_cases hd : |ts - adj| < a.1
    · rw [if_pos hd] at h
      obtain ⟨hmem, hle, hall⟩ := ih _ h
      refine ⟨?_, ?_, ?_⟩
      · rcases hmem with heq | ⟨ts', hts', hval⟩
        · exact Or.inr ⟨ts, by rw [heq]; exact List.mem_cons_self _ _, by rw [heq]⟩
        · exact Or.inr ⟨ts', List.mem_cons_of_mem _ hts', hval⟩
      · exact hle.trans hd.le
      · intro p hp
        rcases List.mem_cons.mp hp with rfl | hp'
        · exact hle
        · exact hall p hp'
    · rw [if_neg hd] at h
      obtain ⟨hmem, hle, hall⟩ := ih _ h
      refine ⟨?_, hle, ?_⟩
      · rcases hmem with heq | ⟨ts', hts', hval⟩
        · exact Or.inl heq
        · exact Or.inr ⟨ts', List.mem_cons_of_mem _ hts', hval⟩
      · intro p hp
        rcases List.mem_cons.mp hp with rfl | hp'
        · exact hle.trans (not_lt.mp hd)
        · exact hall p hp'

/-- Claim C6: `get_frame_at_time` returns `none` exactly when the selected
source's buffer is empty, and otherwise returns a buffered image whose
timestamp minimizes `|ts - (target_time + offset)|` over that source's
buffered frames. -/
theorem get_frame_at_time_spec (buf : FrameBuffer) (target_time : ℚ)
    (source : String) (offset : ℚ) :
    (buf.get_frame_at_time target_time source offset = none ↔
      (if source = "robot" then buf.robot_frames else buf.webcam_frames) = []) ∧
    (∀ f, buf.get_frame_at_time target_time source offset = some f →
      ∃ ts, (ts, f) ∈ (if source = "robot" then buf.robot_frames else buf.webcam_frames) ∧
        ∀ q ∈ (if source = "robot" then buf.robot_frames else buf.webcam_frames),
          |ts - (target_time + offset)| ≤ |q.1 - (target_time + offset)|) := by
  unfold FrameBuffer.get_frame_at_time
  cases hfr : (if source = "robot" then buf.robot_frames else buf.webcam_frames) with
  | nil => simp [hfr]
  | cons q rest =>
    obtain ⟨ts0, f0⟩ := q
    rw [if_neg (by simp)]
    have hstep : bestLoop (target_time + offset) ((ts0, f0) :: rest) none
        = bestLoop (target_time + offset) rest (some (|ts0 - (target_time + offset)|, f0)) := by
      rfl
    obtain ⟨r, hr⟩ := bestLoop_isSome (target_time + offset) rest
      (|ts0 - (target_time + offset)|, f0)
    constructor
    · rw [hstep, hr]
      simp
    · intro f hf
      rw [hstep, hr] at hf
      simp only [Option.map_some', Option.some.injEq] at hf
      obtain ⟨hmem, hle, hall⟩ := bestLoop_spec _ _ _ _ hr
      have hrval : ∃ ts, (ts, r.2) ∈ (ts0, f0) :: rest ∧ r.1 = |ts - (target_time + offset)| := by
        rcases hmem with heq | ⟨ts', hts', hval⟩
        · exact ⟨ts0, by rw [heq]; exact List.mem_cons_self _ _, by rw [heq]⟩
        · exact ⟨ts', List.mem_cons_of_mem _ hts', hval⟩
      obtain ⟨ts, hts, hval⟩ := hrval
      refine ⟨ts, by rw [hf] at hts; exact hts, ?_⟩
      intro p hp
      rw [← hval]
      rcases List.mem_cons.mp hp with rfl | hp'
      · exact hle
      · exact hall p hp'

/-- Witness for claim C6: in a buffer with robot frames at timestamps `0` and
`5`, the query at `target_time = 4` returns frame `20` (timestamp `5`), which
is the minimizer. -/
theorem get_frame_at_time_spec_witness :
    FrameBuffer.get_frame_at_time
      { max_frames := 60
        robot_frames := [(0, 10), (5, 20)]
        webcam_frames := []
        commands := []
        last_processed_time := 0 } 4 "robot" 0 = some 20 ∧
    ∃ ts, (ts, 20) ∈ [((0 : ℚ), (10 : ℕ)), (5, 20)] ∧
      ∀ q ∈ [((0 : ℚ), (10 : ℕ)), (5, 20)], |ts - (4 + 0)| ≤ |q.1 - (4 + 0)| := by
  have h4 : |(-4 : ℚ)| = 4 := by
    rw [abs_neg]
    exact abs_of_nonneg (by norm_num)
  have h4' : |(0 : ℚ) - (4 + 0)| = 4 := by
    rw [show (0 : ℚ) - (4 + 0) = -4 by norm_num]
    exact h4
  have h1' : |(5 : ℚ) - (4 + 0)| = 1 := by
    rw [show (5 : ℚ) - (4 + 0) = 1 by norm_num]
    exact abs_one
  have heval : FrameBuffer.get_frame_at_time
      { max_frames := 60
        robot_frames := [(0, 10), (5, 20)]
        webcam_frames := []
        commands := []
        last_processed_time := 0 } 4 "robot" 0 = some 20 := by
    norm_num [FrameBuffer.get_frame_at_time, bestLoop, h4, h4', h1', abs_one]
    intro h
    exact absurd h (List.cons_ne_nil _ _)
  refine ⟨heval, ?_⟩
  have h := (get_frame_at_time_spec
    { max_frames := 60
      robot_frames := [(0, 10), (5, 20)]
      webcam_frames := []
      commands := []
      last_processed_time := 0 } 4 "robot" 0).2 20 heval
  simpa using h

lemma foldl_window (start_time end_time : ℚ)
    (cmds : List (ℚ × (ActionName → Option ℚ))) (init : ActionName → ℚ) :
    cmds.foldl
      (fun agg c => if start_time < c.1 ∧ c.1 ≤ end_time then applyCommand agg c.2 else agg)
      init
    = (commandsInWindow cmds start_time end_time).foldl
        (fun agg c => applyCommand agg c.2) init := by
  induction cmds generalizing init with
  | nil => rfl
  | cons c rest ih =>
    by_cases h : start_time < c.1 ∧ c.1 ≤ end_time
    · simp only [commandsInWindow, List.filter_cons, List.foldl_cons, if_pos h,
        decide_eq_true h, ih]
      rfl
    · simp only [commandsInWindow, List.filter_cons, List.foldl_cons, if_neg h,
        decide_eq_false h, ih]
      rfl

lemma foldl_applyCommand_numeric (W : List (ℚ × (ActionName → Option ℚ)))
    (init : ActionName → ℚ) (n : ActionName)
    (h1 : n ≠ ActionName.unused) (h2 : n ≠ ActionName.arm_recenter) :
    (W.foldl (fun agg c => applyCommand agg c.2) init) n
      = init n + (W.map (fun c => (c.2 n).getD 0)).sum := by
  induction W generalizing init with
  | nil => simp
  | cons c rest ih =>
    simp only [List.foldl_cons, List.map_cons, List.sum_cons, ih]
    have : applyCommand init c.2 n = init n + (c.2 n).getD 0 := by
      unfold applyCommand
      cases hc : c.2 n with
      | none => simp
      | some v => simp [if_neg h1, if_neg h2]
    rw [this]
    ring

lemma foldl_applyCommand_recenter (W : List (ℚ × (ActionName → Option ℚ)))
    (init : ActionName → ℚ) :
    (W.foldl (fun agg c => applyCommand agg c.2) init) ActionName.arm_recenter
      = if ∃ c ∈ W, (c.2 ActionName.arm_recenter).getD 0 ≠ 0 then 1
        else init ActionName.arm_recenter := by
  induction W generalizing init with
  | nil => simp
  | cons c rest ih =>
    simp only [List.foldl_cons, ih]
    have happ : applyCommand init c.2 ActionName.arm_recenter
        = if (c.2 ActionName.arm_recenter).getD 0 ≠ 0 then 1
          else init ActionName.arm_recenter := by
      unfold applyCommand
      cases hc : c.2 ActionName.arm_recenter with
      | none => simp
      | some v => simp
    by_cases hrest : ∃ d ∈ rest, (d.2 ActionName.arm_recenter).getD 0 ≠ 0
    · have hall : ∃ d ∈ c :: rest, (d.2 ActionName.arm_recenter).getD 0 ≠ 0 := by
        obtain ⟨d, hd, hval⟩ := hrest
        exact ⟨d, List.mem_cons_of_mem _ hd, hval⟩
      rw [if_pos hrest, if_pos hall]
    · rw [if_neg hrest, happ]
      by_cases hc : (c.2 ActionName.arm_recenter).getD 0 ≠ 0
      · have hall : ∃ d ∈ c :: rest, (d.2 ActionName.arm_recenter).getD 0 ≠ 0 :=
          ⟨c, List.mem_cons_self _ _, hc⟩
        rw [if_pos hc, if_pos hall]
      · have hall : ¬ ∃ d ∈ c :: rest, (d.2 ActionName.arm_recenter).getD 0 ≠ 0 := by
          rintro ⟨d, hd, hval⟩
          rcases List.mem_cons.mp hd with h | h
          · exact hc (h ▸ hval)
          · exact hrest ⟨d, h, hval⟩
        rw [if_neg hc, if_neg hall]

/-- Claim C1: over any window `(start_ts, end_ts]`, `aggregate_commands` sums
every numeric channel over exactly the buffered commands in the window,
OR-s the boolean channel `arm_recenter` (value `1` exactly when some command
in the window carries a truthy value, hence never above `1`), leaves channels
present in no command at `0` (the sum of an empty contribution list), and
clamps `gripper_open` and `gripper_close` to their configured `(min, max)`
after summing. -/
theorem aggregate_commands_spec (buf : FrameBuffer) (s e : ℚ)
    (ranges : ActionName → Option (ℚ × ℚ)) :
    (∀ n : ActionName, n ≠ ActionName.unused → n ≠ ActionName.arm_recenter →
      n ≠ ActionName.gripper_open → n ≠ ActionName.gripper_close →
      buf.aggregate_commands s e ranges n
        = ((commandsInWindow buf.commands s e).map (fun c => (c.2 n).getD 0)).sum) ∧
    (buf.aggregate_commands s e ranges ActionName.arm_recenter
        = if ∃ c ∈ commandsInWindow buf.commands s e,
              (c.2 ActionName.arm_recenter).getD 0 ≠ 0 then 1 else 0) ∧
    buf.aggregate_commands s e ranges ActionName.arm_recenter ≤ 1 ∧
    (∀ n : ActionName, n = ActionName.gripper_open ∨ n = ActionName.gripper_close →
      buf.aggregate_commands s e ranges n
        = max ((ranges n).getD (0, 100)).1 (min ((ranges n).getD (0, 100)).2
            (((commandsInWindow buf.commands s e).map (fun c => (c.2 n).getD 0)).sum))) := by
  have hbase : ∀ n : ActionName,
      (buf.commands.foldl
        (fun agg c => if s < c.1 ∧ c.1 ≤ e then applyCommand agg c.2 else agg)
        (fun _ => 0)) n
      = ((commandsInWindow buf.commands s e).foldl
          (fun agg c => applyCommand agg c.2) (fun _ => 0)) n := by
    intro n
    rw [foldl_window]
  refine ⟨?_, ?_, ?_, ?_⟩
  · intro n hu hr hgo hgc
    unfold FrameBuffer.aggregate_commands
    simp only
    rw [if_neg (by simp [hgo, hgc]), hbase n,
      foldl_applyCommand_numeric _ _ n hu hr]
    exact zero_add _
  · unfold FrameBuffer.aggregate_commands
    simp only
    rw [if_neg (by simp), hbase _, foldl_applyCommand_recenter]
  · unfold FrameBuffer.aggregate_commands
    simp only
    rw [if_neg (by simp), hbase _, foldl_applyCommand_recenter]
    split <;> norm_num
  · intro n hn
    unfold FrameBuffer.aggregate_commands
    simp only
    rw [if_pos hn, hbase n, foldl_applyCommand_numeric _ _ n (by rcases hn with h | h <;> simp [h])
      (by rcases hn with h | h <;> simp [h])]
    simp

/-- Witness for claim C1: the spec's own example, commands
`{t=1: move_x=1}` and `{t=2: move_x=2}` aggregated over `(0, 2]`
yield `move_x = 3`. -/
theorem aggregate_commands_spec_witness :
    FrameBuffer.aggregate_commands
      { max_frames := 60
        robot_frames := []
        webcam_frames := []
        commands :=
          [(1, fun n => if n = ActionName.move_x then some 1 else none),
           (2, fun n => if n = ActionName.move_x then some 2 else none)]
        last_processed_time := 0 }
      0 2 (fun _ => none) ActionName.move_x = 3 := by
  have h := (aggregate_commands_spec
    { max_frames := 60
      robot_frames := []
      webcam_frames := []
      commands :=
        [(1, fun n => if n = ActionName.move_x then some 1 else none),
         (2, fun n => if n = ActionName.move_x then some 2 else none)]
      last_processed_time := 0 }
    0 2 (fun _ => none)).1 ActionName.move_x
    (by decide) (by decide) (by decide) (by decide)
  rw [h]
  norm_num [commandsInWindow]

/-- Claim C2: for every channel with configured range `(min, max)` and every
raw value `v` with `min ≤ v ≤ max`, denormalizing the normalization of `v`
returns `v` within `1e-6` (in fact exactly, in exact arithmetic). -/
theorem denormalize_normalize_roundtrip
    (ranges : ActionName → Option (ℚ × ℚ)) (raw : ActionName → Option ℚ)
    (name : ActionName) (mn mx v : ℚ)
    (hname : name ≠ ActionName.unused)
    (hr : ranges name = some (mn, mx)) (hv : raw name = some v)
    (h1 : mn ≤ v) (h2 : v ≤ mx) :
    ∃ w, denormalize_action (normalize_action raw ranges) ranges name = some w ∧
      |w - v| ≤ 1 / 1000000 := by
  have hnorm : (normalize_action raw ranges).getD (actionIndex name) 0 =
      (if name = ActionName.unused then 0
       else
        let raw_value := (raw name).getD 0
        let r := (ranges name).getD (0, 1)
        let clipped := max r.1 (min r.2 raw_value)
        if r.2 - r.1 > 0 then (clipped - r.1) / (r.2 - r.1) * 2 - 1 else 0) :=
    getD_map_actionIndex _ name
  rw [if_neg hname, hr, hv] at hnorm
  simp only [Option.getD_some] at hnorm
  have hclip : max mn (min mx v) = v := by
    rw [min_eq_right h2, max_eq_right h1]
  refine ⟨(((normalize_action raw ranges).getD (actionIndex name) 0) + 1) / 2 * (mx - mn) + mn,
    ?_, ?_⟩
  · unfold denormalize_action
    rw [if_neg hname, hr]
    rfl
  · rw [hnorm]
    by_cases hpos : mx - mn > 0
    · rw [if_pos hpos]
      have hne : mx - mn ≠ 0 := ne_of_gt hpos
      have : ((max mn (min mx v) - mn) / (mx - mn) * 2 - 1 + 1) / 2 * (mx - mn) + mn = v := by
        rw [hclip]
        field_simp
        ring
      rw [this, sub_self, abs_zero]
      norm_num
    · have hle : mx ≤ mn := by linarith [not_lt.mp hpos]
      have hvm : v = mn := le_antisymm (h2.trans hle) h1
      have hmx : mx = mn := le_antisymm hle (h1.trans h2)
      rw [if_neg hpos, hvm, hmx]
      have : (0 + 1) / 2 * (mn - mn) + mn - mn = (0 : ℚ) := by ring
      rw [this, abs_zero]
      norm_num

/-- Witness for claim C2 at the concrete range `(0, 10)` and raw value `7`. -/
theorem denormalize_normalize_roundtrip_witness :
    ∃ w, denormalize_action
        (normalize_action
          (fun n => if n = ActionName.move_x then some 7 else none)
          (fun n => if n = ActionName.move_x then some (0, 10) else none))
        (fun n => if n = ActionName.move_x then some (0, 10) else none)
        ActionName.move_x = some w ∧ |w - 7| ≤ 1 / 1000000 :=
  denormalize_normalize_roundtrip _ _ ActionName.move_x 0 10 7
    (by decide) rfl rfl (by norm_num) (by norm_num)

/-- Position snapshot `(x m, y m, yaw deg)` from the chassis subscription. -/
structure Pos where
  x : ℚ
  y : ℚ
  z : ℚ
deriving DecidableEq, Repr

/-- A recorded command, as appended by the `record_*` methods of
`CommandRecorder` in `cli/recorder.py`. The chassis commands carry the
`expected_pos` snapshot; the others have no `expected_pos` key. -/
inductive RecCommand where
  | chassis_speed (time vx vy vz : ℚ) (expected_pos : Pos)
  | chassis_move (time x y z xy_speed z_speed : ℚ) (expected_pos : Pos)
  | arm_move (time x y : ℚ)
  | arm_recenter (time : ℚ)
  | gripper_open (time : ℚ) (power : ℤ)
  | gripper_close (time : ℚ) (power : ℤ)
  | gripper_stop (time : ℚ)
  | stop (time : ℚ)
deriving DecidableEq, Repr

/-- The `'time'` field of a recorded command. -/
def RecCommand.time : RecCommand → ℚ
  | .chassis_speed t _ _ _ _ => t
  | .chassis_move t _ _ _ _ _ _ => t
  | .arm_move t _ _ => t
  | .arm_recenter t => t
  | .gripper_open t _ => t
  | .gripper_close t _ => t
  | .gripper_stop t => t
  | .stop t => t

/-- The `'type'` string of a recorded command. -/
def RecCommand.ctype : RecCommand → String
  | .chassis_speed .. => "chassis_speed"
  | .chassis_move .. => "chassis_move"
  | .arm_move .. => "arm_move"
  | .arm_recenter .. => "arm_recenter"
  | .gripper_open .. => "gripper_open"
  | .gripper_close .. => "gripper_close"
  | .gripper_stop .. => "gripper_stop"
  | .stop .. => "stop"

/-- The `'expected_pos'` field (`none` when the key is absent). -/
def RecCommand.expected_pos : RecCommand → Option Pos
  | .chassis_speed _ _ _ _ p => some p
  | .chassis_move _ _ _ _ _ _ p => some p
  | _ => none

/-- The `(vx, vy, vz)` redundancy key of a `chassis_speed` command. -/
def RecCommand.speed_key : RecCommand → Option (ℚ × ℚ × ℚ)
  | .chassis_speed _ vx vy vz _ => some (vx, vy, vz)
  | _ => none

/-- The loop body of `CommandRecorder._optimize_commands` over
`self.commands[1:]`: a `chassis_speed` command is skipped when its
`(vx, vy, vz)` key equals `last_speed` (otherwise `last_speed` is updated);
a gripper command is skipped when its type string equals `last_gripper`
(otherwise `last_gripper` is updated); everything else is kept. -/
def optimizeLoop (last_speed : Option (ℚ × ℚ × ℚ)) (last_gripper : Option String) :
    List RecCommand → List RecCommand
  | [] => []
  | cmd :: rest =>
    match cmd with
    | .chassis_speed t vx vy vz p =>
      if some (vx, vy, vz) = last_speed then optimizeLoop last_speed last_gripper rest
      else RecCommand.chassis_speed t vx vy vz p ::
        optimizeLoop (some (vx, vy, vz)) last_gripper rest
    | _ =>
      if cmd.ctype = "gripper_open" ∨ cmd.ctype = "gripper_close" ∨
          cmd.ctype = "gripper_stop" then
        if some cmd.ctype = last_gripper then optimizeLoop last_speed last_gripper rest
        else cmd :: optimizeLoop last_speed (some cmd.ctype) rest
      else cmd :: optimizeLoop last_speed last_gripper rest

/-- `CommandRecorder._optimize_commands`: the first command is kept verbatim
(without seeding `last_speed`/`last_gripper`, which start as `None`), then the
loop runs over the remaining commands. -/
def optimize_commands : List RecCommand → List RecCommand
  | [] => []
  | c :: rest => c :: optimizeLoop none none rest

/-- The versioned document written by `CommandRecorder.save`. -/
structure SavedRecording where
  version : String
  duration : ℚ
  command_count : ℕ
  commands : List RecCommand
deriving DecidableEq, Repr

/-- `CommandRecorder.save`: runs the redundancy pass and writes the versioned
document. -/
def CommandRecorder.save (commands : List RecCommand) (duration : ℚ) : SavedRecording :=
  { version := "1.0"
    duration := duration
    command_count := (optimize_commands commands).length
    commands := optimize_commands commands }

/-- Counterexample to claim C4 as stated: a log consisting of exactly two
consecutive identical `chassis_speed` commands followed by a different
command is saved with the duplicate NOT collapsed, because
`_optimize_commands` keeps `commands[0]` verbatim without seeding
`last_speed`. -/
theorem save_head_duplicates_not_collapsed :
    (CommandRecorder.save
      [RecCommand.chassis_speed 1 1 0 0 ⟨0, 0, 0⟩,
       RecCommand.chassis_speed 1 1 0 0 ⟨0, 0, 0⟩,
       RecCommand.stop 2] 2).commands
      = [RecCommand.chassis_speed 1 1 0 0 ⟨0, 0, 0⟩,
         RecCommand.chassis_speed 1 1 0 0 ⟨0, 0, 0⟩,
         RecCommand.stop 2] ∧
    (CommandRecorder.save
      [RecCommand.chassis_speed 1 1 0 0 ⟨0, 0, 0⟩,
       RecCommand.chassis_speed 1 1 0 0 ⟨0, 0, 0⟩,
       RecCommand.stop 2] 2).commands
      ≠ [RecCommand.chassis_speed 1 1 0 0 ⟨0, 0, 0⟩, RecCommand.stop 2] := by
  constructor
  · simp [CommandRecorder.save, optimize_commands, optimizeLoop]
  · simp [CommandRecorder.save, optimize_commands, optimizeLoop]

/-- Claim C4, amended: `save()` collapses consecutive `chassis_speed`
commands with an identical `(vx, vy, vz)` triple, and consecutive gripper
commands of identical type, into a single entry, provided the first
duplicate is not the very first command of the log (the initial command is
kept verbatim and does not seed the redundancy tracking); the following
differing command and the overall order are preserved. -/
theorem save_collapses_duplicates_amended :
    (∀ (c₀ : RecCommand) (t1 t2 vx vy vz : ℚ) (p1 p2 : Pos) (d : RecCommand) (dur : ℚ),
      d.speed_key ≠ some (vx, vy, vz) →
      (CommandRecorder.save
        [c₀, RecCommand.chassis_speed t1 vx vy vz p1,
         RecCommand.chassis_speed t2 vx vy vz p2, d] dur).commands
        = [c₀, RecCommand.chassis_speed t1 vx vy vz p1, d]) ∧
    (∀ (c₀ : RecCommand) (t1 t2 : ℚ) (pw : ℤ) (d : RecCommand) (dur : ℚ),
      d.ctype ≠ "gripper_open" →
      (CommandRecorder.save
        [c₀, RecCommand.gripper_open t1 pw, RecCommand.gripper_open t2 pw, d] dur).commands
        = [c₀, RecCommand.gripper_open t1 pw, d]) := by
  constructor
  · intro c₀ t1 t2 vx vy vz p1 p2 d dur hd
    cases d <;>
      simp_all [CommandRecorder.save, optimize_commands, optimizeLoop,
        RecCommand.speed_key, RecCommand.ctype]
  · intro c₀ t1 t2 pw d dur hd
    cases d <;>
      simp_all [CommandRecorder.save, optimize_commands, optimizeLoop,
        RecCommand.speed_key, RecCommand.ctype]

/-- Witness for the amended claim C4: with a preceding command, two identical
`chassis_speed` commands followed by a `stop` collapse to one entry. -/
theorem save_collapses_duplicates_amended_witness :
    (CommandRecorder.save
      [RecCommand.arm_recenter 0,
       RecCommand.chassis_speed 1 1 0 0 ⟨0, 0, 0⟩,
       RecCommand.chassis_speed 2 1 0 0 ⟨0, 0, 0⟩,
       RecCommand.stop 3] 3).commands
      = [RecCommand.arm_recenter 0,
         RecCommand.chassis_speed 1 1 0 0 ⟨0, 0, 0⟩,
         RecCommand.stop 3] :=
  save_collapses_duplicates_amended.1 (RecCommand.arm_recenter 0) 1 2 1 0 0
    ⟨0, 0, 0⟩ ⟨0, 0, 0⟩ (RecCommand.stop 3) 3 (by simp [RecCommand.speed_key])

/-- State of `CommandPlayer` from `cli/recorder.py`. `start_time` is `none`
until `start()` is called; `current_position` is the last pose delivered by
the chassis subscription. -/
structure CommandPlayer where
  commands : List RecCommand
  duration : ℚ
  current_index : ℕ
  start_time : Option ℚ
  stopped : Bool
  current_position : Pos
deriving DecidableEq, Repr

/-- `CommandPlayer.is_playing`: started, not stopped, and commands remain. -/
def CommandPlayer.is_playing (self : CommandPlayer) : Bool :=
  self.start_time.isSome && !self.stopped &&
    decide (self.current_index < self.commands.length)

/-- `CommandPlayer.elapsed` at wall-clock time `now` (`0.0` before start). -/
def CommandPlayer.elapsed (self : CommandPlayer) (now : ℚ) : ℚ :=
  match self.start_time with
  | none => 0
  | some t => now - t

/-- `CommandPlayer.update_position`. -/
def CommandPlayer.update_position (self : CommandPlayer) (x y z : ℚ) : CommandPlayer :=
  { self with current_position := ⟨x, y, z⟩ }

/-- `CommandPlayer.start` at wall-clock time `now`. -/
def CommandPlayer.start (self : CommandPlayer) (now : ℚ) : CommandPlayer :=
  { self with start_time := some now, current_index := 0, stopped := false }

/-- `CommandPlayer.stop`. -/
def CommandPlayer.stop (self : CommandPlayer) : CommandPlayer :=
  { self with stopped := true }

/-- The `while dz > 180: dz -= 360` loop of `check_position_reached`. -/
def reduceYaw (dz : ℚ) : ℚ :=
  if h : dz > 180 then reduceYaw (dz - 360) else dz
termination_by (⌈(dz - 180) / 360⌉).toNat
decreasing_by
  have h1 : (0 : ℚ) < (dz - 180) / 360 := by
    apply div_pos
    · linarith
    · norm_num
  have h2 : ⌈(dz - 360 - 180) / 360⌉ = ⌈(dz - 180) / 360⌉ - 1 := by
    have he : (dz - 360 - 180) / 360 = (dz - 180) / 360 - 1 := by ring
    rw [he, Int.ceil_sub_one]
  have h3 : 0 < ⌈(dz - 180) / 360⌉ := Int.ceil_pos.mpr h1
  simp only [h2]
  omega

/-- `CommandPlayer.check_position_reached`: absolute tolerances `0.01 m` on
`x` and `y`, `1°` on yaw after the wrap-around reduction; `True` when no
expected position is given. -/
def check_position_reached (current_position : Pos) (expected_pos : Option Pos) : Bool :=
  match expected_pos with
  | none => true
  | some p =>
    let dx := |current_position.x - p.x|
    let dy := |current_position.y - p.y|
    let dz := abs (reduceYaw (abs (current_position.z - p.z)))
    decide (dx ≤ 1 / 100) && decide (dy ≤ 1 / 100) && decide (dz ≤ 1)

/-- `CommandPlayer.get_next_command_with_position`: returns `(result, new
state)`. Withholds the head command when it carries an `expected_pos` that
the live pose has not reached; otherwise returns it and advances the
cursor. -/
def CommandPlayer.get_next_command_with_position (self : CommandPlayer) :
    Option RecCommand × CommandPlayer :=
  if self.is_playing = false then (none, self)
  else if h : self.current_index < self.commands.length then
    let cmd := self.commands.get ⟨self.current_index, h⟩
    if cmd.expected_pos.isSome ∧
        check_position_reached self.current_position cmd.expected_pos = false then
      (none, self)
    else (some cmd, { self with current_index := self.current_index + 1 })
  else (none, self)

/-- The `while` loop of `CommandPlayer.get_pending_commands`: collect
commands from index `i` on while their `time` is at most `current_time`. -/
def pendingLoop (commands : List RecCommand) (current_time : ℚ) (i : ℕ)
    (acc : List RecCommand) : List RecCommand × ℕ :=
  if h : i < commands.length then
    if (commands.get ⟨i, h⟩).time ≤ current_time then
      pendingLoop commands current_time (i + 1) (acc ++ [commands.get ⟨i, h⟩])
    else (acc, i)
  else (acc, i)
termination_by commands.length - i

/-- `CommandPlayer.get_pending_commands` at wall-clock time `now`: returns
`(pending, new state)`. -/
def CommandPlayer.get_pending_commands (self : CommandPlayer) (now : ℚ) :
    List RecCommand × CommandPlayer :=
  if self.is_playing = false then ([], self)
  else
    let r := pendingLoop self.commands (self.elapsed now) self.current_index []
    (r.1, { self with current_index := r.2 })

/-- A caller-side operation on a `CommandPlayer`. -/
inductive PlayerOp where
  | updatePosition (x y z : ℚ)
  | getPending (now : ℚ)
  | getNext
  | stopOp
  | startOp (now : ℚ)

/-- Whether a player operation is `start()`. -/
def PlayerOp.isStart : PlayerOp → Bool
  | .startOp _ => true
  | _ => false

/-- Apply a player operation to the state (discarding the returned value). -/
def CommandPlayer.applyOp (self : CommandPlayer) : PlayerOp → CommandPlayer
  | .updatePosition x y z => self.update_position x y z
  | .getPending now => (self.get_pending_commands now).2
  | .getNext => self.get_next_command_with_position.2
  | .stopOp => self.stop
  | .startOp now => self.start now

lemma reduceYaw_le_180 (dz : ℚ) : reduceYaw dz ≤ 180 := by
  induction dz using reduceYaw.induct with
  | case1 d h ih => rw [reduceYaw, dif_pos h]; exact ih
  | case2 d h => rw [reduceYaw, dif_neg h]; exact le_of_not_lt h

lemma reduceYaw_gt_neg (dz : ℚ) (hd : -180 < dz) : -180 < reduceYaw dz := by
  induction dz using reduceYaw.induct with
  | case1 d h ih => rw [reduceYaw, dif_pos h]; exact ih (by linarith)
  | case2 d h => rw [reduceYaw, dif_neg h]; exact hd

lemma reduceYaw_sub_int (dz : ℚ) : ∃ k : ℤ, reduceYaw dz = dz - 360 * k := by
  induction dz using reduceYaw.induct with
  | case1 d h ih =>
    obtain ⟨k, hk⟩ := ih
    refine ⟨k + 1, ?_⟩
    rw [reduceYaw, dif_pos h, hk]
    push_cast
    ring
  | case2 d h =>
    refine ⟨0, ?_⟩
    rw [reduceYaw, dif_neg h]
    push_cast
    ring

lemma yaw_tolerance_iff (d : ℚ) :
    abs (reduceYaw (abs d)) ≤ 1 ↔ ∃ k : ℤ, |d - 360 * k| ≤ 1 := by
  constructor
  · intro h
    obtain ⟨m, hm⟩ := reduceYaw_sub_int (abs d)
    rcases abs_cases d with ⟨ha, _⟩ | ⟨ha, _⟩
    · exact ⟨m, by rw [ha] at hm h; rw [← hm]; exact h⟩
    · refine ⟨-m, ?_⟩
      have : d - 360 * ((-m : ℤ) : ℚ) = -((abs d) - 360 * m) := by
        rw [ha]; push_cast; ring
      rw [this, abs_neg, ← hm]
      exact h
  · rintro ⟨k, hk⟩
    obtain ⟨m, hm⟩ := reduceYaw_sub_int (abs d)
    have hub : reduceYaw (abs d) ≤ 180 := reduceYaw_le_180 _
    have hlb : -180 < reduceYaw (abs d) := reduceYaw_gt_neg _ (by
      have := abs_nonneg d; linarith)
    have hs : ∃ k' : ℤ, |(abs d) - 360 * k'| ≤ 1 := by
      rcases abs_cases d with ⟨ha, _⟩ | ⟨ha, _⟩
      · exact ⟨k, by rw [ha]; exact hk⟩
      · refine ⟨-k, ?_⟩
        have : (abs d) - 360 * ((-k : ℤ) : ℚ) = -(d - 360 * k) := by
          rw [ha]; push_cast; ring
        rw [this, abs_neg]
        exact hk
    obtain ⟨k', hk'⟩ := hs
    have habs := abs_le.mp hk'
    have hcast : ((k' : ℚ) - (m : ℚ)) = ((k' - m : ℤ) : ℚ) := by push_cast; ring
    have hre : reduceYaw (abs d) - ((abs d) - 360 * (k' : ℚ)) = 360 * ((k' : ℚ) - (m : ℚ)) := by
      rw [hm]; ring
    have hkm : k' = m := by
      by_contra hne
      have h1 : (1 : ℤ) ≤ |k' - m| := Int.one_le_abs (sub_ne_zero.mpr hne)
      have h2 : (1 : ℚ) ≤ |((k' - m : ℤ) : ℚ)| := by exact_mod_cast h1
      have h3 : (360 : ℚ) ≤ |360 * ((k' : ℚ) - (m : ℚ))| := by
        rw [hcast, abs_mul]
        have h360 : |(360 : ℚ)| = 360 := by norm_num
        rw [h360]
        nlinarith [h2]
      have h4 : |360 * ((k' : ℚ) - (m : ℚ))| ≤ 181 := by
        rw [← hre, abs_le]
        constructor
        · linarith [hlb, habs.2]
        · linarith [hub, habs.1]
      linarith
    rw [hkm] at hk'
    rw [hm]
    exact hk'

lemma check_position_reached_some_iff (pos p : Pos) :
    check_position_reached pos (some p) = true ↔
      (|pos.x - p.x| ≤ 1 / 100 ∧ |pos.y - p.y| ≤ 1 / 100 ∧
        ∃ k : ℤ, |pos.z - p.z - 360 * k| ≤ 1) := by
  unfold check_position_reached
  simp only [Bool.and_eq_true, decide_eq_true_eq]
  rw [yaw_tolerance_iff]
  tauto

/-- Claim C3: when playback is active, `get_next_command_with_position`
returns the next command and advances the cursor by one exactly when that
command has no `expected_pos` or the live pose is within tolerance of it
(`|Δx| ≤ 0.01`, `|Δy| ≤ 0.01`, and the yaw difference is within `1°` of some
multiple of `360°`, i.e. its normalization into `[-180°, 180°]` has absolute
value at most `1°`); otherwise it returns `none` and leaves the state
unchanged. -/
theorem get_next_command_with_position_spec (s : CommandPlayer)
    (hp : s.is_playing = true) (h : s.current_index < s.commands.length) :
    (s.get_next_command_with_position
        = (some (s.commands.get ⟨s.current_index, h⟩),
           { s with current_index := s.current_index + 1 })
      ↔ ((s.commands.get ⟨s.current_index, h⟩).expected_pos = none ∨
         ∃ p, (s.commands.get ⟨s.current_index, h⟩).expected_pos = some p ∧
           |s.current_position.x - p.x| ≤ 1 / 100 ∧
           |s.current_position.y - p.y| ≤ 1 / 100 ∧
           ∃ k : ℤ, |s.current_position.z - p.z - 360 * k| ≤ 1)) ∧
    (s.get_next_command_with_position = (none, s)
      ↔ ¬ ((s.commands.get ⟨s.current_index, h⟩).expected_pos = none ∨
         ∃ p, (s.commands.get ⟨s.current_index, h⟩).expected_pos = some p ∧
           |s.current_position.x - p.x| ≤ 1 / 100 ∧
           |s.current_position.y - p.y| ≤ 1 / 100 ∧
           ∃ k : ℤ, |s.current_position.z - p.z - 360 * k| ≤ 1)) := by
  have hres : s.get_next_command_with_position =
      if (s.commands.get ⟨s.current_index, h⟩).expected_pos.isSome ∧
          check_position_reached s.current_position
            (s.commands.get ⟨s.current_index, h⟩).expected_pos = false
      then (none, s)
      else (some (s.commands.get ⟨s.current_index, h⟩),
            { s with current_index := s.current_index + 1 }) := by
    unfold CommandPlayer.get_next_command_with_position
    rw [if_neg (by simp [hp]), dif_pos h]
  have hngate : ((s.commands.get ⟨s.current_index, h⟩).expected_pos.isSome ∧
      check_position_reached s.current_position
        (s.commands.get ⟨s.current_index, h⟩).expected_pos = false)
      ↔ ¬ ((s.commands.get ⟨s.current_index, h⟩).expected_pos = none ∨
         ∃ p, (s.commands.get ⟨s.current_index, h⟩).expected_pos = some p ∧
           |s.current_position.x - p.x| ≤ 1 / 100 ∧
           |s.current_position.y - p.y| ≤ 1 / 100 ∧
           ∃ k : ℤ, |s.current_position.z - p.z - 360 * k| ≤ 1) := by
    cases hep : (s.commands.get ⟨s.current_index, h⟩).expected_pos with
    | none => simp
    | some p =>
      simp only [Option.isSome_some, true_and, Option.some.injEq,
        reduceCtorEq, false_or]
      rw [Bool.eq_false_iff, Ne, check_position_reached_some_iff]
      constructor
      · intro hnot ⟨p', hpp, hcond⟩
        refine hnot ?_
        rw [hpp]
        exact hcond
      · intro hnot hcond
        exact hnot ⟨p, rfl, hcond⟩
  by_cases hb : (s.commands.get ⟨s.current_index, h⟩).expected_pos.isSome ∧
      check_position_reached s.current_position
        (s.commands.get ⟨s.current_index, h⟩).expected_pos = false
  · rw [hres, if_pos hb]
    exact ⟨iff_of_false (by simp) (hngate.mp hb), iff_of_true rfl (hngate.mp hb)⟩
  · rw [hres, if_neg hb]
    have hcond := not_not.mp (fun hnc => hb (hngate.mpr hnc))
    exact ⟨iff_of_true rfl hcond, iff_of_false (by simp) (not_not_intro hcond)⟩

/-- Witness for claim C3, the spec's yaw-wrap example: the next command
expects yaw `179°`, the live pose has yaw `-179°`; the normalized difference
is `2°`, exceeding the `1°` tolerance, so the command is withheld and the
player state is unchanged. -/
theorem get_next_command_with_position_spec_witness :
    CommandPlayer.get_next_command_with_position
      { commands := [RecCommand.chassis_speed 0 1 0 0 ⟨0, 0, 179⟩]
        duration := 1
        current_index := 0
        start_time := some 0
        stopped := false
        current_position := ⟨0, 0, -179⟩ }
      = (none,
         { commands := [RecCommand.chassis_speed 0 1 0 0 ⟨0, 0, 179⟩]
           duration := 1
           current_index := 0
           start_time := some 0
           stopped := false
           current_position := ⟨0, 0, -179⟩ }) := by
  refine (get_next_command_with_position_spec
    { commands := [RecCommand.chassis_speed 0 1 0 0 ⟨0, 0, 179⟩]
      duration := 1
      current_index := 0
      start_time := some 0
      stopped := false
      current_position := ⟨0, 0, -179⟩ } rfl Nat.zero_lt_one).2.mpr ?_
  rintro (hnone | ⟨p, hp', hx, hy, k, hk⟩)
  · exact Option.noConfusion hnone
  · have hps : some (Pos.mk 0 0 179) = some p := hp'
    have hpp : p = Pos.mk 0 0 179 := (Option.some.inj hps).symm
    subst hpp
    have hk' : |(-179 : ℚ) - 179 - 360 * (k : ℚ)| ≤ 1 := hk
    obtain ⟨hl, hr⟩ := abs_le.mp hk'
    have hk1 : (-359 : ℚ) ≤ ((360 * k : ℤ) : ℚ) := by push_cast; linarith
    have hk2 : ((360 * k : ℤ) : ℚ) ≤ (-357 : ℚ) := by push_cast; linarith
    have hk1' : (-359 : ℤ) ≤ 360 * k := by exact_mod_cast hk1
    have hk2' : (360 * k : ℤ) ≤ -357 := by exact_mod_cast hk2
    omega

lemma pendingLoop_go (cmds : List RecCommand) (t : ℚ) :
    ∀ (n i : ℕ) (acc : List RecCommand), cmds.length - i ≤ n →
      pendingLoop cmds t i acc
        = (acc ++ (cmds.drop i).takeWhile (fun c => decide (c.time ≤ t)),
           i + ((cmds.drop i).takeWhile (fun c => decide (c.time ≤ t))).length) := by
  intro n
  induction n with
  | zero =>
    intro i acc hn
    rw [pendingLoop, dif_neg (by omega), List.drop_eq_nil_of_le (by omega)]
    simp
  | succ n ih =>
    intro i acc hn
    rw [pendingLoop]
    by_cases hi : i < cmds.length
    · rw [dif_pos hi]
      have hdrop : cmds.drop i = cmds.get ⟨i, hi⟩ :: cmds.drop (i + 1) :=
        (@List.cons_get_drop_succ _ cmds ⟨i, hi⟩).symm
      by_cases hc : (cmds.get ⟨i, hi⟩).time ≤ t
      · rw [if_pos hc, ih (i + 1) _ (by omega), hdrop,
          List.takeWhile_cons_of_pos (by simpa using hc)]
        rw [Prod.mk.injEq]
        constructor
        · rw [List.append_assoc]
          rfl
        · rw [List.length_cons]
          omega
      · rw [if_neg hc, hdrop, List.takeWhile_cons_of_neg (by simpa using hc)]
        simp
    · rw [dif_neg hi, List.drop_eq_nil_of_le (by omega)]
      simp

lemma takeWhile_eq_filter_of_sorted (t : ℚ) (l : List RecCommand)
    (hsort : l.Pairwise (fun a b => a.time ≤ b.time)) :
    l.takeWhile (fun c => decide (c.time ≤ t)) = l.filter (fun c => decide (c.time ≤ t)) := by
  induction l with
  | nil => rfl
  | cons a l ih =>
    rcases List.pairwise_cons.mp hsort with ⟨ha, hl⟩
    by_cases hc : a.time ≤ t
    · rw [List.takeWhile_cons_of_pos (by simpa using hc),
        List.filter_cons_of_pos (by simpa using hc), ih hl]
    · rw [List.takeWhile_cons_of_neg (by simpa using hc),
        List.filter_cons_of_neg (by simpa using hc)]
      symm
      rw [List.filter_eq_nil_iff]
      intro b hb
      simp only [decide_eq_true_eq]
      intro hbt
      exact hc ((ha b hb).trans hbt)

/-- Claim C7: while playback is active, `get_pending_commands` returns, in
recorded order, exactly the not-yet-returned commands (those from the cursor
on) whose time offset is at most the elapsed time, and advances the cursor
past them, so no command can be returned twice. The recorded log is
time-sorted from the cursor on, as produced by `CommandRecorder`. -/
theorem get_pending_commands_spec (s : CommandPlayer) (now : ℚ)
    (hp : s.is_playing = true)
    (hsort : (s.commands.drop s.current_index).Pairwise (fun a b => a.time ≤ b.time)) :
    s.get_pending_commands now
      = ((s.commands.drop s.current_index).filter
           (fun c => decide (c.time ≤ s.elapsed now)),
         { s with current_index := s.current_index +
            ((s.commands.drop s.current_index).filter
              (fun c => decide (c.time ≤ s.elapsed now))).length }) := by
  unfold CommandPlayer.get_pending_commands
  rw [if_neg (by simp [hp])]
  have hloop := pendingLoop_go s.commands (s.elapsed now) (s.commands.length - s.current_index)
    s.current_index [] (le_refl _)
  rw [takeWhile_eq_filter_of_sorted _ _ hsort] at hloop
  rw [hloop]
  simp

/-- Witness for claim C7: with commands at offsets `1`, `2`, `5` and elapsed
time `3`, exactly the first two commands are returned and the cursor advances
to `2`. -/
theorem get_pending_commands_spec_witness :
    CommandPlayer.get_pending_commands
      { commands := [RecCommand.arm_move 1 4 5, RecCommand.arm_recenter 2,
                     RecCommand.gripper_stop 5]
        duration := 6
        current_index := 0
        start_time := some 0
        stopped := false
        current_position := ⟨0, 0, 0⟩ } 3
      = ([RecCommand.arm_move 1 4 5, RecCommand.arm_recenter 2],
         { commands := [RecCommand.arm_move 1 4 5, RecCommand.arm_recenter 2,
                        RecCommand.gripper_stop 5]
           duration := 6
           current_index := 2
           start_time := some 0
           stopped := false
           current_position := ⟨0, 0, 0⟩ }) := by
  have h := get_pending_commands_spec
    { commands := [RecCommand.arm_move 1 4 5, RecCommand.arm_recenter 2,
                   RecCommand.gripper_stop 5]
      duration := 6
      current_index := 0
      start_time := some 0
      stopped := false
      current_position := ⟨0, 0, 0⟩ } 3 rfl
    (by
      simp [List.pairwise_cons, RecCommand.time]
      norm_num)
  rw [h]
  norm_num [CommandPlayer.elapsed, RecCommand.time, List.filter]

lemma is_playing_of_stopped (s : CommandPlayer) (h : s.stopped = true) :
    s.is_playing = false := by
  unfold CommandPlayer.is_playing
  rw [h]
  simp

lemma get_pending_of_stopped (s : CommandPlayer) (now : ℚ) (h : s.stopped = true) :
    s.get_pending_commands now = ([], s) := by
  unfold CommandPlayer.get_pending_commands
  rw [if_pos (is_playing_of_stopped s h)]

lemma get_next_of_stopped (s : CommandPlayer) (h : s.stopped = true) :
    s.get_next_command_with_position = (none, s) := by
  unfold CommandPlayer.get_next_command_with_position
  rw [if_pos (is_playing_of_stopped s h)]

lemma applyOp_stopped (s : CommandPlayer) (op : PlayerOp)
    (hop : op.isStart = false) (h : s.stopped = true) :
    (s.applyOp op).stopped = true := by
  cases op with
  | updatePosition x y z => exact h
  | getPending now =>
    show (s.get_pending_commands now).2.stopped = true
    rw [get_pending_of_stopped s now h]
    exact h
  | getNext =>
    show s.get_next_command_with_position.2.stopped = true
    rw [get_next_of_stopped s h]
    exact h
  | stopOp => rfl
  | startOp now => simp [PlayerOp.isStart] at hop

lemma foldl_applyOp_stopped (ops : List PlayerOp) (s : CommandPlayer)
    (hops : ∀ op ∈ ops, op.isStart = false) (h : s.stopped = true) :
    (ops.foldl CommandPlayer.applyOp s).stopped = true := by
  induction ops generalizing s with
  | nil => exact h
  | cons op rest ih =>
    rw [List.foldl_cons]
    exact ih _ (fun o ho => hops o (List.mem_cons_of_mem _ ho))
      (applyOp_stopped s op (hops op (List.mem_cons_self _ _)) h)

/-- Claim C8: after `stop()`, and after any further sequence of non-`start`
operations (position updates, retrieval calls, further stops), playback never
releases another command: `get_pending_commands` returns `[]` and
`get_next_command_with_position` returns `none`, regardless of elapsed time
or pose. -/
theorem stop_terminal_spec (s : CommandPlayer) (ops : List PlayerOp) (now : ℚ)
    (hops : ∀ op ∈ ops, op.isStart = false) :
    ((ops.foldl CommandPlayer.applyOp s.stop).get_pending_commands now).1 = [] ∧
    (ops.foldl CommandPlayer.applyOp s.stop).get_next_command_with_position.1 = none := by
  have hstop : (ops.foldl CommandPlayer.applyOp s.stop).stopped = true :=
    foldl_applyOp_stopped ops s.stop hops rfl
  constructor
  · rw [get_pending_of_stopped _ _ hstop]
  · rw [get_next_of_stopped _ hstop]

/-- Witness for claim C8: a freshly started player that is stopped, then
receives a pose update and a retrieval call, still yields nothing at a much
later time. -/
theorem stop_terminal_spec_witness :
    (([PlayerOp.updatePosition 1 0 0, PlayerOp.getPending 9].foldl
        CommandPlayer.applyOp
        (CommandPlayer.stop
          { commands := [RecCommand.stop 0]
            duration := 1
            current_index := 0
            start_time := some 0
            stopped := false
            current_position := ⟨0, 0, 0⟩ })).get_pending_commands 100).1 = [] ∧
    ([PlayerOp.updatePosition 1 0 0, PlayerOp.getPending 9].foldl
        CommandPlayer.applyOp
        (CommandPlayer.stop
          { commands := [RecCommand.stop 0]
            duration := 1
            current_index := 0
            start_time := some 0
            stopped := false
            current_position := ⟨0, 0, 0⟩ })).get_next_command_with_position.1 = none :=
  stop_terminal_spec
    { commands := [RecCommand.stop 0]
      duration := 1
      current_index := 0
      start_time := some 0
      stopped := false
      current_position := ⟨0, 0, 0⟩ }
    [PlayerOp.updatePosition 1 0 0, PlayerOp.getPending 9] 100
    (by decide)

/-- State of `LeRobotRecorder` from `cli/lerobot_recorder.py`. The dataset
handle is opaque (`_init_dataset` performs I/O; here it is abstracted as
allocating a handle), and `sampler_threads` counts launched sampler
threads. -/
structure LeRobotRecorder where
  fps : ℕ
  dry_run : Bool
  buffer : FrameBuffer
  recording : Bool
  frame_count : ℕ
  start_time : ℚ
  last_frame_time : ℚ
  stop_event : Bool
  dataset : Option ℕ
  sampler_threads : ℕ

/-- `LeRobotRecorder.add_robot_frame`: no-op unless recording; otherwise
forwards to the buffer with the current wall-clock timestamp. -/
def LeRobotRecorder.add_robot_frame (self : LeRobotRecorder) (frame : ℕ) (now : ℚ) :
    LeRobotRecorder :=
  if self.recording = true then
    { self with buffer := self.buffer.add_robot_frame frame now }
  else self

/-- `LeRobotRecorder.add_webcam_frame`: no-op unless recording. -/
def LeRobotRecorder.add_webcam_frame (self : LeRobotRecorder) (frame : ℕ) (now : ℚ) :
    LeRobotRecorder :=
  if self.recording = true then
    { self with buffer := self.buffer.add_webcam_frame frame now }
  else self

/-- `LeRobotRecorder.add_command`: no-op unless recording. -/
def LeRobotRecorder.add_command (self : LeRobotRecorder) (command : ActionName → Option ℚ)
    (now : ℚ) : LeRobotRecorder :=
  if self.recording = true then
    { self with buffer := self.buffer.add_command command now }
  else self

/-- `LeRobotRecorder.start` at wall-clock time `now`: returns immediately
when already recording; otherwise resets the counters and session clock,
clears the stop event and the buffer, initializes the dataset unless in
dry-run mode, and launches the sampler thread. -/
def LeRobotRecorder.start (self : LeRobotRecorder) (now : ℚ) : LeRobotRecorder :=
  if self.recording = true then self
  else
    { self with
      recording := true
      frame_count := 0
      start_time := now
      last_frame_time := now
      stop_event := false
      buffer := self.buffer.clear
      dataset := if self.dry_run then self.dataset else some 0
      sampler_threads := self.sampler_threads + 1 }

/-- Claim C9: when the recorder is not recording, `add_command`,
`add_robot_frame` and `add_webcam_frame` leave the whole state (in
particular the frame and command buffers) unchanged; when recording, each
forwards its argument with a timestamp to the corresponding buffer and
changes nothing else. -/
theorem add_methods_spec (s : LeRobotRecorder) (now : ℚ) (frame : ℕ)
    (cmd : ActionName → Option ℚ) :
    (s.recording = false →
      s.add_robot_frame frame now = s ∧
      s.add_webcam_frame frame now = s ∧
      s.add_command cmd now = s) ∧
    (s.recording = true →
      s.add_robot_frame frame now
          = { s with buffer := s.buffer.add_robot_frame frame now } ∧
      s.add_webcam_frame frame now
          = { s with buffer := s.buffer.add_webcam_frame frame now } ∧
      s.add_command cmd now
          = { s with buffer := s.buffer.add_command cmd now }) := by
  constructor
  · intro h
    have hne : ¬ s.recording = true := by rw [h]; exact Bool.false_ne_true
    exact ⟨by unfold LeRobotRecorder.add_robot_frame; rw [if_neg hne],
      by unfold LeRobotRecorder.add_webcam_frame; rw [if_neg hne],
      by unfold LeRobotRecorder.add_command; rw [if_neg hne]⟩
  · intro h
    exact ⟨by unfold LeRobotRecorder.add_robot_frame; rw [if_pos h],
      by unfold LeRobotRecorder.add_webcam_frame; rw [if_pos h],
      by unfold LeRobotRecorder.add_command; rw [if_pos h]⟩

/-- Witness for claim C9: a recorder that is not recording ignores a frame
and a command. -/
theorem add_methods_spec_witness :
    LeRobotRecorder.add_robot_frame
      { fps := 30
        dry_run := false
        buffer := FrameBuffer.init 2 30
        recording := false
        frame_count := 0
        start_time := 0
        last_frame_time := 0
        stop_event := false
        dataset := none
        sampler_threads := 0 } 7 5
      = { fps := 30
          dry_run := false
          buffer := FrameBuffer.init 2 30
          recording := false
          frame_count := 0
          start_time := 0
          last_frame_time := 0
          stop_event := false
          dataset := none
          sampler_threads := 0 } ∧
    LeRobotRecorder.add_command
      { fps := 30
        dry_run := false
        buffer := FrameBuffer.init 2 30
        recording := false
        frame_count := 0
        start_time := 0
        last_frame_time := 0
        stop_event := false
        dataset := none
        sampler_threads := 0 } (fun _ => none) 5
      = { fps := 30
          dry_run := false
          buffer := FrameBuffer.init 2 30
          recording := false
          frame_count := 0
          start_time := 0
          last_frame_time := 0
          stop_event := false
          dataset := none
          sampler_threads := 0 } := by
  have h := (add_methods_spec
    { fps := 30
      dry_run := false
      buffer := FrameBuffer.init 2 30
      recording := false
      frame_count := 0
      start_time := 0
      last_frame_time := 0
      stop_event := false
      dataset := none
      sampler_threads := 0 } 5 7 (fun _ => none)).1 rfl
  exact ⟨h.1, h.2.2⟩

/-- Claim C10: calling `start()` on a recorder that is already recording is
a no-op: the frame counter, session start time, buffer contents, dataset
handle, stop event and thread count are all unchanged. -/
theorem start_idempotent_while_recording (s : LeRobotRecorder) (now : ℚ)
    (h : s.recording = true) : s.start now = s := by
  unfold LeRobotRecorder.start
  rw [if_pos h]

/-- Witness for claim C10: starting an already-recording recorder changes
nothing. -/
theorem start_idempotent_while_recording_witness :
    LeRobotRecorder.start
      { fps := 30
        dry_run := false
        buffer := FrameBuffer.init 2 30
        recording := true
        frame_count := 4
        start_time := 1
        last_frame_time := 2
        stop_event := false
        dataset := some 0
        sampler_threads := 1 } 9
      = { fps := 30
          dry_run := false
          buffer := FrameBuffer.init 2 30
          recording := true
          frame_count := 4
          start_time := 1
          last_frame_time := 2
          stop_event := false
          dataset := some 0
          sampler_threads := 1 } :=
  start_idempotent_while_recording
    { fps := 30
      dry_run := false
      buffer := FrameBuffer.init 2 30
      recording := true
      frame_count := 4
      start_time := 1
      last_frame_time := 2
      stop_event := false
      dataset := some 0
      sampler_threads := 1 } 9 rfl

end RoboMaster
